import Mathlib

/-!
Shallow embedding of the github_stats server (src/server.js).

The program keeps two process-wide mutable structures: `cache` (repository
full name → `{latestCommit, languages}`) and `blacklist`
(`{repos, paths, languages}`), loaded from JSON files at startup.  External
HTTP collaborators (GitHub rate-limit and repository listing, codetabs line
counter) and the durable cache write are modelled as oracles in `Env`; the
mutable globals plus the on-disk cache image are threaded as `ServerState`.
JavaScript objects used as string-keyed maps are modelled as association
lists with JS assignment semantics (overwrite in place, append when new).
-/

namespace GithubStats

/-- One record of the codetabs line-counter response: `{language, linesOfCode}`. -/
structure LanguageData where
  language : String
  linesOfCode : Nat
  deriving DecidableEq, Repr

/-- A JS object mapping language name to line count, in key insertion order. -/
abbrev LanguageCounts := List (String × Nat)

/-- Lookup of a key in a JS object: first (and only) binding, if any. -/
def getLang : LanguageCounts → String → Option Nat
  | [], _ => none
  | (k, v) :: rest, l => if k == l then some v else getLang rest l

/-- JS read with the `|| 0` default used by the source. -/
def getLangD (m : LanguageCounts) (l : String) : Nat :=
  (getLang m l).getD 0

/-- JS assignment `obj[l] = v`: overwrite in place, append when absent. -/
def setLang : LanguageCounts → String → Nat → LanguageCounts
  | [], l, v => [(l, v)]
  | (k, w) :: rest, l, v =>
    if k == l then (l, v) :: rest else (k, w) :: setLang rest l v

/-- A cache entry as stored in cache.json: `{latestCommit, languages}`. -/
structure CacheEntry where
  latestCommit : String
  languages : LanguageCounts
  deriving DecidableEq, Repr

/-- The in-memory cache object: repository full name → entry. -/
abbrev Cache := List (String × CacheEntry)

/-- Lookup `cache[name]`. -/
def cacheGet : Cache → String → Option CacheEntry
  | [], _ => none
  | (k, e) :: rest, n => if k == n then some e else cacheGet rest n

/-- JS assignment `cache[name] = entry`. -/
def cacheSet : Cache → String → CacheEntry → Cache
  | [], n, e => [(n, e)]
  | (k, f) :: rest, n, e =>
    if k == n then (n, e) :: rest else (k, f) :: cacheSet rest n e

/-- The blacklist object: `{repos, paths, languages}`. -/
structure Blacklist where
  repos : List String
  paths : List String
  languages : List String
  deriving DecidableEq, Repr

/-- A repository record from the GitHub listing, restricted to the fields
the program reads: `name`, `full_name`, `pushed_at`. -/
structure Repo where
  name : String
  full_name : String
  pushed_at : String
  deriving DecidableEq, Repr

/-- Process state: the two in-memory globals, the durable image of
cache.json, and the console error log. -/
structure ServerState where
  cache : Cache
  disk : Cache
  blacklist : Blacklist
  errorLog : List String
  deriving DecidableEq, Repr

/-- External collaborators: the rate-limit endpoint (`rate.remaining`), the
repository listing for a username, the codetabs line counter (full name and
comma-joined ignored paths), and whether the durable cache write succeeds. -/
structure Env where
  rateLimit : Except String Nat
  listRepos : String → Except String (List Repo)
  loc : String → String → Except String (List LanguageData)
  persistOk : Bool

/-- saveCacheToFile: write the whole cache mapping to disk; on failure log
the error and swallow it (the in-memory cache is unchanged either way). -/
def saveCacheToFile (env : Env) (st : ServerState) : ServerState :=
  if env.persistOk then
    ⟨st.cache, st.cache, st.blacklist, st.errorLog⟩
  else
    ⟨st.cache, st.disk, st.blacklist, st.errorLog ++ ["Error saving cache file:"]⟩

/-- One step of the response loop in fetchLanguageCountsForRepo: skip a
blacklisted language, otherwise `languages[language] = (languages[language] || 0) + lines`. -/
def buildStep (excluded : List String) (acc : LanguageCounts) (r : LanguageData) :
    LanguageCounts :=
  if excluded.contains r.language then acc
  else setLang acc r.language (getLangD acc r.language + r.linesOfCode)

/-- The `response.data.forEach` loop: build the per-repo mapping from the
collaborator records, dropping blacklisted languages. -/
def buildLanguages (excluded : List String) (respData : List LanguageData) :
    LanguageCounts :=
  respData.foldl (buildStep excluded) []

/-- The cache-validity test of fetchLanguageCountsForRepo:
`cache[repoName] && cache[repoName].latestCommit === latestCommit`. -/
def cacheHit (st : ServerState) (repo : Repo) : Bool :=
  match cacheGet st.cache repo.full_name with
  | some entry => entry.latestCommit == repo.pushed_at
  | none => false

/-- The cache-miss tail of fetchLanguageCountsForRepo: call the line
counter, build the filtered mapping, store it in the cache and persist.
The third component counts line-counter calls.  A collaborator error is
returned as `.error` (the JS exception propagating) with the state as it
was at the throw. -/
def fetchFresh (env : Env) (st : ServerState) (repo : Repo) :
    Except String LanguageCounts × ServerState × Nat :=
  match env.loc repo.full_name (String.intercalate "," st.blacklist.paths) with
  | .error e => (.error e, st, 1)
  | .ok respData =>
    let languages := buildLanguages st.blacklist.languages respData
    let withEntry : ServerState :=
      ⟨cacheSet st.cache repo.full_name ⟨repo.pushed_at, languages⟩,
       st.disk, st.blacklist, st.errorLog⟩
    (.ok languages, saveCacheToFile env withEntry, 1)

/-- fetchLanguageCountsForRepo: return the cached mapping when the stored
marker matches `pushed_at`, otherwise fetch fresh counts. -/
def fetchLanguageCountsForRepo (env : Env) (st : ServerState) (repo : Repo) :
    Except String LanguageCounts × ServerState × Nat :=
  match cacheGet st.cache repo.full_name with
  | some entry =>
    if entry.latestCommit == repo.pushed_at then (.ok entry.languages, st, 0)
    else fetchFresh env st repo
  | none => fetchFresh env st repo

/-- The `Object.entries(repoLanguages)` loop of aggregateLanguageCounts:
add each (language, lines) pair into the running total. -/
def mergeInto (total : LanguageCounts) (repoLanguages : LanguageCounts) :
    LanguageCounts :=
  repoLanguages.foldl (fun acc p => setLang acc p.1 (getLangD acc p.1 + p.2)) total

/-- The repository loop of aggregateLanguageCounts, threading the state,
the running total and the line-counter call count. -/
def aggregateGo (env : Env) (st : ServerState) (repos : List Repo)
    (acc : LanguageCounts) (calls : Nat) :
    Except String LanguageCounts × ServerState × Nat :=
  match repos with
  | [] => (.ok acc, st, calls)
  | repo :: rest =>
    if st.blacklist.repos.contains repo.name then
      aggregateGo env st rest acc calls
    else
      match fetchLanguageCountsForRepo env st repo with
      | (.error e, st', k) => (.error e, st', calls + k)
      | (.ok repoLanguages, st', k) =>
        aggregateGo env st' rest (mergeInto acc repoLanguages) (calls + k)

/-- aggregateLanguageCounts: sum per-language counts over all repositories
whose short name is not blacklisted. -/
def aggregateLanguageCounts (env : Env) (st : ServerState) (repos : List Repo) :
    Except String LanguageCounts × ServerState × Nat :=
  aggregateGo env st repos [] 0

/-- countLinesOfCode: list the user repositories, then either resolve the
one named repository (error if absent) or aggregate over all of them.  The
last two components count listing calls and line-counter calls. -/
def countLinesOfCode (env : Env) (st : ServerState) (username : String)
    (repoName : Option String) :
    Except String LanguageCounts × ServerState × Nat × Nat :=
  match env.listRepos username with
  | .error e => (.error e, st, 1, 0)
  | .ok repos =>
    match repoName with
    | some rn =>
      match repos.find? (fun r => r.name == rn) with
      | some repo =>
        match fetchLanguageCountsForRepo env st repo with
        | (res, st', k) => (res, st', 1, k)
      | none => (.error ("Repository " ++ rn ++ " not found"), st, 1, 0)
    | none =>
      match aggregateLanguageCounts env st repos with
      | (res, st', k) => (res, st', 1, k)

/-- An HTTP response body: either the language-count JSON or `{error: msg}`. -/
inductive ResponseBody where
  | counts (m : LanguageCounts)
  | error (msg : String)
  deriving DecidableEq, Repr

/-- An HTTP response: status code and body. -/
structure HttpResponse where
  status : Nat
  body : ResponseBody
  deriving DecidableEq, Repr

/-- The GET /languages/:username handler.  The last two components count
repository-listing calls and line-counter calls made for the request. -/
def handleLanguagesUser (env : Env) (st : ServerState) (username : String) :
    HttpResponse × ServerState × Nat × Nat :=
  match env.rateLimit with
  | .error e => (⟨500, .error e⟩, st, 0, 0)
  | .ok remaining =>
    if remaining == 0 then
      (⟨429, .error "Rate limit exceeded. Try again later."⟩, st, 0, 0)
    else
      match countLinesOfCode env st username none with
      | (.ok totalLines, st', kl, kr) => (⟨200, .counts totalLines⟩, st', kl, kr)
      | (.error e, st', kl, kr) => (⟨500, .error e⟩, st', kl, kr)

/-- The GET /languages/:username/:repoName handler. -/
def handleLanguagesUserRepo (env : Env) (st : ServerState) (username : String)
    (repoName : String) : HttpResponse × ServerState × Nat × Nat :=
  match env.rateLimit with
  | .error e => (⟨500, .error e⟩, st, 0, 0)
  | .ok remaining =>
    if remaining == 0 then
      (⟨429, .error "Rate limit exceeded. Try again later."⟩, st, 0, 0)
    else
      match countLinesOfCode env st username (some repoName) with
      | (.ok totalLines, st', kl, kr) => (⟨200, .counts totalLines⟩, st', kl, kr)
      | (.error e, st', kl, kr) => (⟨500, .error e⟩, st', kl, kr)

/-- A JSON value, for modelling loadDataFromFile. -/
inductive Json where
  | null
  | bool (b : Bool)
  | num (n : Int)
  | str (s : String)
  | arr (xs : List Json)
  | obj (fields : List (String × Json))

/-- What the data file holds: absent, present but not valid JSON (so
`JSON.parse` throws), or present and parsing to a JSON value. -/
inductive FileData where
  | absent
  | unparsable
  | content (j : Json)

/-- JS truthiness of a parsed JSON value. -/
def jsTruthy : Json → Bool
  | .null => false
  | .bool b => b
  | .num n => n != 0
  | .str s => s != ""
  | .arr _ => true
  | .obj _ => true

/-- Whether `typeof data === "object"` holds for a parsed JSON value
(true for objects, arrays and null in JS). -/
def jsTypeofObject : Json → Bool
  | .null => true
  | .arr _ => true
  | .obj _ => true
  | _ => false

/-- loadDataFromFile: returns the loaded value, whether an error was
logged, and whether the default was written to the file.  A present file
is parsed; the parsed value is kept iff it is truthy and of object type;
a parse exception is logged; an absent file is created with the default;
in every remaining case the default is returned. -/
def loadDataFromFile (file : FileData) (defaultValue : Json) :
    Json × Bool × Bool :=
  match file with
  | .absent => (defaultValue, false, true)
  | .unparsable => (defaultValue, true, false)
  | .content j =>
    if jsTruthy j && jsTypeofObject j then (j, false, false)
    else (defaultValue, false, false)

/-- The startup default for the blacklist document: three empty arrays. -/
def blacklistDefaultJson : Json :=
  .obj [("repos", .arr []), ("paths", .arr []), ("languages", .arr [])]

/-- Sum of the line counts reported for one language across the
collaborator records (specification-side definition for the claims). -/
def sumLines (l : String) : List LanguageData → Nat
  | [] => 0
  | r :: rest => (if r.language == l then r.linesOfCode else 0) + sumLines l rest

/-! Concrete inputs used to instantiate the theorems. -/

/-- A blacklist with one excluded repo name, path and language. -/
def blW : Blacklist := ⟨["secret"], ["dist"], ["Go"]⟩

/-- A cache entry for demo/app at the 2024-01-01 push. -/
def entryW : CacheEntry := ⟨"2024-01-01T00:00Z", [("JS", 100)]⟩

/-- demo/app at the cached push timestamp (cache hit). -/
def repoW : Repo := ⟨"app", "demo/app", "2024-01-01T00:00Z"⟩

/-- demo/app after a newer push (stale cache entry). -/
def repoStaleW : Repo := ⟨"app", "demo/app", "2024-02-01T00:00Z"⟩

/-- A second, uncached repository. -/
def repoBW : Repo := ⟨"lib", "demo/lib", "2024-03-01T00:00Z"⟩

/-- A repository whose short name is blacklisted. -/
def repoSecretW : Repo := ⟨"secret", "demo/secret", "2024-01-01T00:00Z"⟩

/-- A server state caching demo/app at 2024-01-01, mirrored on disk. -/
def stW : ServerState :=
  ⟨[("demo/app", entryW)], [("demo/app", entryW)], blW, []⟩

/-- A line-counter response with a repeated language and a blacklisted one. -/
def locRespW : List LanguageData := [⟨"JS", 150⟩, ⟨"Go", 50⟩, ⟨"JS", 10⟩]

/-- A line-counter oracle serving demo/app and demo/lib. -/
def locTableW (full : String) (_ignored : String) :
    Except String (List LanguageData) :=
  if full == "demo/app" then .ok locRespW
  else if full == "demo/lib" then .ok [⟨"TS", 30⟩]
  else .error "loc failed"

/-- Collaborators with budget left, two listed repos and working persistence. -/
def envW : Env :=
  ⟨.ok 5000, fun _ => .ok [repoW, repoSecretW], locTableW, true⟩

/-- Collaborators reporting an exhausted rate-limit budget. -/
def envZeroW : Env :=
  ⟨.ok 0, fun _ => .ok [repoW], fun _ _ => .error "x", true⟩

/-- Collaborators whose line counter always fails. -/
def envFailW : Env :=
  ⟨.ok 5000, fun _ => .ok [repoStaleW], fun _ _ => .error "loc down", true⟩

/-- Collaborators whose durable cache write fails. -/
def envNoPersistW : Env :=
  ⟨.ok 5000, fun _ => .ok [repoStaleW], locTableW, false⟩

/-- The cache entry for demo/lib produced by resolving repoBW. -/
def entryBW : CacheEntry := ⟨"2024-03-01T00:00Z", [("TS", 30)]⟩

/-- The state after resolving repoBW from stW with working persistence. -/
def stC4W : ServerState :=
  ⟨[("demo/app", entryW), ("demo/lib", entryBW)],
   [("demo/app", entryW), ("demo/lib", entryBW)], blW, []⟩

/-- A blacklist document that is an object missing paths and languages. -/
def malformedBlacklistJson : Json := .obj [("repos", .arr [])]

/-! Helper lemmas on the JS-object operations. -/

theorem getLang_setLang_self (m : LanguageCounts) (l : String) (v : Nat) :
    getLang (setLang m l v) l = some v := by
  induction m with
  | nil => simp [setLang, getLang]
  | cons p rest ih =>
    obtain ⟨k, w⟩ := p
    by_cases h : k == l
    · simp [setLang, h, getLang]
    · simp [setLang, h, getLang, ih]

theorem getLang_setLang_ne (m : LanguageCounts) (l n : String) (v : Nat)
    (h : n ≠ l) : getLang (setLang m l v) n = getLang m n := by
  induction m with
  | nil =>
    simp [setLang, getLang]
    intro he
    exact absurd he.symm h
  | cons p rest ih =>
    obtain ⟨k, w⟩ := p
    by_cases hk : k == l
    · have hk' : k = l := by simpa using hk
      subst hk'
      have hln : (k == n) = false := by
        simp
        intro he
        exact absurd he.symm h
      simp [setLang, getLang, hln]
    · simp [setLang, hk, getLang, ih]

theorem getLangD_setLang_ne (m : LanguageCounts) (l n : String) (v : Nat)
    (h : n ≠ l) : getLangD (setLang m l v) n = getLangD m n := by
  simp [getLangD, getLang_setLang_ne m l n v h]

theorem getLang_eq_none_of_not_mem (m : LanguageCounts) (l : String)
    (h : l ∉ m.map Prod.fst) : getLang m l = none := by
  induction m with
  | nil => rfl
  | cons p rest ih =>
    obtain ⟨k, w⟩ := p
    simp only [List.map_cons, List.mem_cons, not_or] at h
    have hk : (k == l) = false := by
      simp only [beq_eq_false_iff_ne]
      exact fun he => h.1 he.symm
    simp only [getLang, hk, Bool.false_eq_true, if_false]
    exact ih h.2

theorem cacheGet_cacheSet_self (c : Cache) (n : String) (e : CacheEntry) :
    cacheGet (cacheSet c n e) n = some e := by
  induction c with
  | nil => simp [cacheSet, cacheGet]
  | cons p rest ih =>
    obtain ⟨k, f⟩ := p
    by_cases h : k == n
    · simp [cacheSet, h, cacheGet]
    · simp [cacheSet, h, cacheGet, ih]

theorem cacheGet_cacheSet_ne (c : Cache) (n m : String) (e : CacheEntry)
    (h : m ≠ n) : cacheGet (cacheSet c n e) m = cacheGet c m := by
  induction c with
  | nil =>
    simp [cacheSet, cacheGet]
    intro he
    exact absurd he.symm h
  | cons p rest ih =>
    obtain ⟨k, f⟩ := p
    by_cases hk : k == n
    · have hk' : k = n := by simpa using hk
      subst hk'
      have hmn : (k == m) = false := by
        simp
        intro he
        exact absurd he.symm h
      simp [cacheSet, cacheGet, hmn]
    · simp [cacheSet, hk, cacheGet, ih]

/-! Characterization of the response-processing loop. -/

theorem buildFold_excluded (excluded : List String) (l : String)
    (hl : excluded.contains l = true) (respData : List LanguageData) :
    ∀ acc : LanguageCounts,
      getLang (respData.foldl (buildStep excluded) acc) l = getLang acc l := by
  have hl' : l ∈ excluded := by simpa using hl
  induction respData with
  | nil => intro acc; rfl
  | cons r rest ih =>
    intro acc
    simp only [List.foldl_cons]
    rw [ih]
    unfold buildStep
    by_cases hr : r.language ∈ excluded
    · rw [if_pos (by simpa using hr)]
    · rw [if_neg (by simpa using hr)]
      apply getLang_setLang_ne
      intro he
      rw [he] at hl'
      exact hr hl'

theorem buildFold_sum (excluded : List String) (l : String)
    (hl : excluded.contains l = false) (respData : List LanguageData) :
    ∀ acc : LanguageCounts,
      getLangD (respData.foldl (buildStep excluded) acc) l
        = getLangD acc l + sumLines l respData := by
  have hl' : l ∉ excluded := by simpa using hl
  induction respData with
  | nil => intro acc; simp [sumLines]
  | cons r rest ih =>
    intro acc
    simp only [List.foldl_cons, sumLines]
    rw [ih]
    have hstep : getLangD (buildStep excluded acc r) l
        = getLangD acc l + (if r.language == l then r.linesOfCode else 0) := by
      unfold buildStep
      by_cases hr : r.language ∈ excluded
      · have hne : (r.language == l) = false := by
          simp only [beq_eq_false_iff_ne]
          intro he
          rw [he] at hr
          exact hl' hr
        rw [if_pos (by simpa using hr), hne]
        simp
      · rw [if_neg (by simpa using hr)]
        by_cases heq : r.language = l
        · subst heq
          simp [getLangD, getLang_setLang_self]
        · have hne : (r.language == l) = false := by
            simp only [beq_eq_false_iff_ne]
            exact heq
          rw [getLangD_setLang_ne]
          · rw [hne]
            simp
          · exact fun he => heq he.symm
    rw [hstep]
    omega

theorem buildLanguages_excluded (excluded : List String)
    (respData : List LanguageData) (l : String)
    (hl : excluded.contains l = true) :
    getLang (buildLanguages excluded respData) l = none := by
  unfold buildLanguages
  rw [buildFold_excluded excluded l hl respData]
  rfl

theorem buildLanguages_sum (excluded : List String)
    (respData : List LanguageData) (l : String)
    (hl : excluded.contains l = false) :
    getLangD (buildLanguages excluded respData) l = sumLines l respData := by
  unfold buildLanguages
  rw [buildFold_sum excluded l hl respData]
  simp [getLangD, getLang]

/-! Characterization of the aggregation merge loop. -/

theorem getLang_mergeInto (L : LanguageCounts) :
    ∀ t : LanguageCounts, (L.map Prod.fst).Nodup → ∀ l : String,
      getLang (mergeInto t L) l =
        match getLang L l with
        | none => getLang t l
        | some c => some (getLangD t l + c) := by
  induction L with
  | nil => intro t _ l; rfl
  | cons p rest ih =>
    intro t hnd l
    obtain ⟨k, v⟩ := p
    simp only [List.map_cons, List.nodup_cons] at hnd
    obtain ⟨hknot, hndrest⟩ := hnd
    have hstep : mergeInto t ((k, v) :: rest)
        = mergeInto (setLang t k (getLangD t k + v)) rest := rfl
    rw [hstep]
    by_cases hkl : k == l
    · have hkl' : k = l := by simpa using hkl
      subst hkl'
      rw [ih (setLang t k (getLangD t k + v)) hndrest k]
      have hrest : getLang rest k = none :=
        getLang_eq_none_of_not_mem rest k hknot
      simp [getLang, hrest, getLang_setLang_self]
    · have hne : l ≠ k := by
        intro he
        rw [he] at hkl
        simp at hkl
      rw [ih (setLang t k (getLangD t k + v)) hndrest l]
      have ht : getLang (setLang t k (getLangD t k + v)) l = getLang t l :=
        getLang_setLang_ne t k l _ hne
      have htD : getLangD (setLang t k (getLangD t k + v)) l = getLangD t l :=
        getLangD_setLang_ne t k l _ hne
      have hL : getLang ((k, v) :: rest) l = getLang rest l := by
        simp [getLang, hkl]
      rw [hL]
      cases hrl : getLang rest l with
      | none => exact ht
      | some c => rw [htD]

/-! State-preservation lemmas. -/

theorem saveCacheToFile_cache (env : Env) (st : ServerState) :
    (saveCacheToFile env st).cache = st.cache := by
  unfold saveCacheToFile
  split <;> rfl

theorem saveCacheToFile_blacklist (env : Env) (st : ServerState) :
    (saveCacheToFile env st).blacklist = st.blacklist := by
  unfold saveCacheToFile
  split <;> rfl

theorem fetchFresh_blacklist (env : Env) (st : ServerState) (repo : Repo) :
    (fetchFresh env st repo).2.1.blacklist = st.blacklist := by
  unfold fetchFresh
  split
  · rfl
  · rw [saveCacheToFile_blacklist]

theorem fetch_blacklist (env : Env) (st : ServerState) (repo : Repo) :
    (fetchLanguageCountsForRepo env st repo).2.1.blacklist = st.blacklist := by
  unfold fetchLanguageCountsForRepo
  split
  · split
    · rfl
    · rw [fetchFresh_blacklist]
  · rw [fetchFresh_blacklist]

theorem aggregateGo_skip (env : Env) (R : Repo) (l2 : List Repo) :
    ∀ (l1 : List Repo) (st : ServerState) (acc : LanguageCounts) (calls : Nat),
      st.blacklist.repos.contains R.name = true →
      aggregateGo env st (l1 ++ R :: l2) acc calls
        = aggregateGo env st (l1 ++ l2) acc calls := by
  intro l1
  induction l1 with
  | nil =>
    intro st acc calls h
    simp only [List.nil_append]
    conv_lhs => rw [aggregateGo]
    rw [if_pos h]
  | cons r rest1 ih =>
    intro st acc calls h
    simp only [List.cons_append]
    rw [aggregateGo, aggregateGo]
    by_cases hr : st.blacklist.repos.contains r.name
    · simp only [hr, if_true]
      exact ih st acc calls h
    · simp only [hr, Bool.false_eq_true, if_false]
      rcases hq : fetchLanguageCountsForRepo env st r with ⟨res, st2, k⟩
      have hbl : st2.blacklist = st.blacklist := by
        have := fetch_blacklist env st r
        rw [hq] at this
        exact this
      cases res with
      | error e => simp
      | ok L =>
        simp only
        apply ih
        rw [hbl]
        exact h

/-! Bridging lemmas between the cache-validity test and the resolver. -/

theorem fetch_of_hit (env : Env) (st : ServerState) (repo : Repo)
    (entry : CacheEntry)
    (hget : cacheGet st.cache repo.full_name = some entry)
    (hm : (entry.latestCommit == repo.pushed_at) = true) :
    fetchLanguageCountsForRepo env st repo = (.ok entry.languages, st, 0) := by
  unfold fetchLanguageCountsForRepo
  rw [hget]
  simp [hm]

theorem fetch_of_miss (env : Env) (st : ServerState) (repo : Repo)
    (hmiss : cacheHit st repo = false) :
    fetchLanguageCountsForRepo env st repo = fetchFresh env st repo := by
  unfold cacheHit at hmiss
  unfold fetchLanguageCountsForRepo
  cases hget : cacheGet st.cache repo.full_name with
  | none => rfl
  | some entry =>
    rw [hget] at hmiss
    have hm2 : (entry.latestCommit == repo.pushed_at) = false := hmiss
    simp [hm2]

theorem fetchFresh_ok (env : Env) (st : ServerState) (repo : Repo)
    (respData : List LanguageData)
    (hloc : env.loc repo.full_name (String.intercalate "," st.blacklist.paths)
      = .ok respData) :
    fetchFresh env st repo =
      (.ok (buildLanguages st.blacklist.languages respData),
       saveCacheToFile env
         ⟨cacheSet st.cache repo.full_name
            ⟨repo.pushed_at, buildLanguages st.blacklist.languages respData⟩,
          st.disk, st.blacklist, st.errorLog⟩,
       1) := by
  unfold fetchFresh
  rw [hloc]

/-! Claim theorems. -/

/-- C1: for a repository whose cache entry's stored latestCommit equals the
repository's current pushed_at, the resolver returns exactly the stored
language mapping, makes zero line-counter calls, and leaves the whole state
— in particular the cache and its durable image — unchanged. -/
theorem c1_cache_hit (env : Env) (st : ServerState) (repo : Repo)
    (entry : CacheEntry)
    (hget : cacheGet st.cache repo.full_name = some entry)
    (hm : entry.latestCommit = repo.pushed_at) :
    fetchLanguageCountsForRepo env st repo = (.ok entry.languages, st, 0) :=
  fetch_of_hit env st repo entry hget (by simp [hm])

/-- C1 witness: the cached demo/app entry is served verbatim with no call
and no state change. -/
theorem c1_cache_hit_witness :
    fetchLanguageCountsForRepo envW stW repoW = (.ok entryW.languages, stW, 0) :=
  c1_cache_hit envW stW repoW entryW (by rfl) (by rfl)

/-- C7: when the cache entry is absent or stale and the line-counter call
fails, the error propagates out of the resolver unchanged and the state —
in particular the cache — is exactly as before: no partial or fresh entry
is written. -/
theorem c7_loc_failure (env : Env) (st : ServerState) (repo : Repo) (e : String)
    (hmiss : cacheHit st repo = false)
    (hloc : env.loc repo.full_name (String.intercalate "," st.blacklist.paths)
      = .error e) :
    fetchLanguageCountsForRepo env st repo = (.error e, st, 1) := by
  rw [fetch_of_miss env st repo hmiss]
  unfold fetchFresh
  rw [hloc]

/-- C7 witness: a failing line counter leaves the stale cache untouched and
surfaces its error. -/
theorem c7_loc_failure_witness :
    fetchLanguageCountsForRepo envFailW stW repoStaleW
      = (.error "loc down", stW, 1) :=
  c7_loc_failure envFailW stW repoStaleW "loc down" (by rfl) (by rfl)

/-- C2: on a cache miss or stale entry the resolver calls the line counter
exactly once and returns a mapping that, for every non-excluded language,
sums the per-record counts of that language, while every language in the
exclusion set is absent; the same mapping together with the repository's
current pushed_at overwrites any prior cache entry for the repository. -/
theorem c2_cache_miss (env : Env) (st : ServerState) (repo : Repo)
    (respData : List LanguageData)
    (hmiss : cacheHit st repo = false)
    (hloc : env.loc repo.full_name (String.intercalate "," st.blacklist.paths)
      = .ok respData) :
    ∃ L st',
      fetchLanguageCountsForRepo env st repo = (.ok L, st', 1)
      ∧ cacheGet st'.cache repo.full_name = some ⟨repo.pushed_at, L⟩
      ∧ (∀ lang, st.blacklist.languages.contains lang = true →
          getLang L lang = none)
      ∧ (∀ lang, st.blacklist.languages.contains lang = false →
          getLangD L lang = sumLines lang respData) := by
  refine ⟨buildLanguages st.blacklist.languages respData,
    saveCacheToFile env
      ⟨cacheSet st.cache repo.full_name
         ⟨repo.pushed_at, buildLanguages st.blacklist.languages respData⟩,
       st.disk, st.blacklist, st.errorLog⟩, ?_, ?_, ?_, ?_⟩
  · rw [fetch_of_miss env st repo hmiss, fetchFresh_ok env st repo respData hloc]
  · rw [saveCacheToFile_cache]
    exact cacheGet_cacheSet_self st.cache repo.full_name _
  · intro lang hlang
    exact buildLanguages_excluded st.blacklist.languages respData lang hlang
  · intro lang hlang
    exact buildLanguages_sum st.blacklist.languages respData lang hlang

/-- C2 witness: resolving stale demo/app makes one call, sums the two JS
records to 160, drops the excluded Go, and stores the new entry. -/
theorem c2_cache_miss_witness :
    ∃ L st',
      fetchLanguageCountsForRepo envW stW repoStaleW = (.ok L, st', 1)
      ∧ cacheGet st'.cache repoStaleW.full_name
          = some ⟨repoStaleW.pushed_at, L⟩
      ∧ (∀ lang, stW.blacklist.languages.contains lang = true →
          getLang L lang = none)
      ∧ (∀ lang, stW.blacklist.languages.contains lang = false →
          getLangD L lang = sumLines lang locRespW) :=
  c2_cache_miss envW stW repoStaleW locRespW (by rfl) (by rfl)

/-- C8: on a successful cache-miss resolution the durable image holds the
full updated cache mapping before the resolver returns when the write
succeeds, and when the write fails the resolver still returns the fresh
mapping successfully, logs the persistence error, leaves the durable image
as it was, and keeps the fresh entry in the in-memory cache. -/
theorem c8_persist (env : Env) (st : ServerState) (repo : Repo)
    (respData : List LanguageData)
    (hmiss : cacheHit st repo = false)
    (hloc : env.loc repo.full_name (String.intercalate "," st.blacklist.paths)
      = .ok respData) :
    ∃ L st',
      fetchLanguageCountsForRepo env st repo = (.ok L, st', 1)
      ∧ cacheGet st'.cache repo.full_name = some ⟨repo.pushed_at, L⟩
      ∧ (env.persistOk = true →
          st'.disk = st'.cache ∧ st'.errorLog = st.errorLog)
      ∧ (env.persistOk = false →
          st'.disk = st.disk
          ∧ st'.errorLog = st.errorLog ++ ["Error saving cache file:"]) := by
  refine ⟨buildLanguages st.blacklist.languages respData,
    saveCacheToFile env
      ⟨cacheSet st.cache repo.full_name
         ⟨repo.pushed_at, buildLanguages st.blacklist.languages respData⟩,
       st.disk, st.blacklist, st.errorLog⟩, ?_, ?_, ?_, ?_⟩
  · rw [fetch_of_miss env st repo hmiss, fetchFresh_ok env st repo respData hloc]
  · rw [saveCacheToFile_cache]
    exact cacheGet_cacheSet_self st.cache repo.full_name _
  · intro hp
    unfold saveCacheToFile
    rw [hp]
    exact ⟨rfl, rfl⟩
  · intro hp
    unfold saveCacheToFile
    rw [hp]
    exact ⟨rfl, rfl⟩

/-- C8 witness: with a failing durable write, resolving stale demo/app
still succeeds, keeps the new in-memory entry, logs, and leaves the disk
image stale. -/
theorem c8_persist_witness :
    ∃ L st',
      fetchLanguageCountsForRepo envNoPersistW stW repoStaleW = (.ok L, st', 1)
      ∧ cacheGet st'.cache repoStaleW.full_name
          = some ⟨repoStaleW.pushed_at, L⟩
      ∧ (envNoPersistW.persistOk = true →
          st'.disk = st'.cache ∧ st'.errorLog = stW.errorLog)
      ∧ (envNoPersistW.persistOk = false →
          st'.disk = stW.disk
          ∧ st'.errorLog = stW.errorLog ++ ["Error saving cache file:"]) :=
  c8_persist envNoPersistW stW repoStaleW locRespW (by rfl) (by rfl)

/-- C10: a cache-hit resolution leaves the whole state unchanged, and a
successful cache-miss resolution changes the cache exactly at the
repository's full name — the entry there is new — while every other key
keeps its previous value. -/
theorem c10_frame (env : Env) (st : ServerState) (repo : Repo) :
    (cacheHit st repo = true →
      (fetchLanguageCountsForRepo env st repo).2.1 = st)
    ∧ (∀ L st' k,
        cacheHit st repo = false →
        fetchLanguageCountsForRepo env st repo = (.ok L, st', k) →
        cacheGet st'.cache repo.full_name = some ⟨repo.pushed_at, L⟩
        ∧ cacheGet st'.cache repo.full_name ≠ cacheGet st.cache repo.full_name
        ∧ ∀ n, n ≠ repo.full_name →
            cacheGet st'.cache n = cacheGet st.cache n) := by
  constructor
  · intro hhit
    unfold cacheHit at hhit
    cases hget : cacheGet st.cache repo.full_name with
    | none =>
      rw [hget] at hhit
      exact Bool.noConfusion hhit
    | some entry =>
      rw [hget] at hhit
      have hh : (entry.latestCommit == repo.pushed_at) = true := hhit
      rw [fetch_of_hit env st repo entry hget hh]
  · intro L st' k hmiss hok
    rw [fetch_of_miss env st repo hmiss] at hok
    unfold fetchFresh at hok
    cases hloc : env.loc repo.full_name (String.intercalate "," st.blacklist.paths) with
    | error e =>
      rw [hloc] at hok
      exact absurd hok (by simp)
    | ok respData =>
      rw [hloc] at hok
      simp only [Prod.mk.injEq, Except.ok.injEq] at hok
      obtain ⟨hL, hst, -⟩ := hok
      subst hL
      have hcache : st'.cache
          = cacheSet st.cache repo.full_name
              ⟨repo.pushed_at, buildLanguages st.blacklist.languages respData⟩ := by
        rw [← hst, saveCacheToFile_cache]
      refine ⟨?_, ?_, ?_⟩
      · rw [hcache]
        exact cacheGet_cacheSet_self st.cache repo.full_name _
      · rw [hcache, cacheGet_cacheSet_self]
        unfold cacheHit at hmiss
        cases hget : cacheGet st.cache repo.full_name with
        | none => simp
        | some entry =>
          rw [hget] at hmiss
          have hm2 : (entry.latestCommit == repo.pushed_at) = false := hmiss
          intro heq
          simp only [Option.some.injEq] at heq
          rw [← heq] at hm2
          simp at hm2
      · intro n hn
        rw [hcache]
        exact cacheGet_cacheSet_ne st.cache repo.full_name n _ hn

/-- C10 witness: the cache-hit branch of the frame property at the cached
demo/app state. -/
theorem c10_frame_witness :
    (fetchLanguageCountsForRepo envW stW repoW).2.1 = stW :=
  (c10_frame envW stW repoW).1 (by rfl)

/-- C4: aggregation is pointwise additive: the empty list aggregates to
the empty mapping, and for two non-excluded repositories resolving to
mappings L1 and L2 (with duplicate-free keys), the aggregate maps every
language to the sum of its values in L1 and L2 — so languages of one
repository only keep their value unmodified, shared languages are summed,
and no other language appears. -/
theorem c4_aggregate_additive (env : Env) (st st1 st2 : ServerState)
    (R1 R2 : Repo) (L1 L2 : LanguageCounts) (k1 k2 : Nat)
    (hb1 : st.blacklist.repos.contains R1.name = false)
    (hb2 : st.blacklist.repos.contains R2.name = false)
    (h1 : fetchLanguageCountsForRepo env st R1 = (.ok L1, st1, k1))
    (h2 : fetchLanguageCountsForRepo env st1 R2 = (.ok L2, st2, k2))
    (hn1 : (L1.map Prod.fst).Nodup) (hn2 : (L2.map Prod.fst).Nodup) :
    aggregateLanguageCounts env st [] = (.ok [], st, 0)
    ∧ ∃ M, aggregateLanguageCounts env st [R1, R2] = (.ok M, st2, k1 + k2)
        ∧ ∀ l, getLang M l =
            match getLang L1 l, getLang L2 l with
            | none, none => none
            | o1, o2 => some (o1.getD 0 + o2.getD 0) := by
  have hbl1 : st1.blacklist = st.blacklist := by
    have h := fetch_blacklist env st R1
    rw [h1] at h
    exact h
  constructor
  · rfl
  · refine ⟨mergeInto (mergeInto [] L1) L2, ?_, ?_⟩
    · unfold aggregateLanguageCounts
      conv_lhs => rw [aggregateGo]
      rw [if_neg (by simpa using hb1)]
      simp only [h1]
      conv_lhs => rw [aggregateGo]
      rw [hbl1, if_neg (by simpa using hb2)]
      simp only [h2]
      conv_lhs => rw [aggregateGo]
      simp
    · have hM1 : ∀ l, getLang (mergeInto [] L1) l = getLang L1 l := by
        intro l
        rw [getLang_mergeInto L1 [] hn1 l]
        cases hl1 : getLang L1 l with
        | none => rfl
        | some c => simp [getLangD, getLang]
      have hM1D : ∀ l, getLangD (mergeInto [] L1) l = getLangD L1 l := by
        intro l
        unfold getLangD
        rw [hM1 l]
      intro l
      rw [getLang_mergeInto L2 (mergeInto [] L1) hn2 l]
      cases hl2 : getLang L2 l with
      | none =>
        rw [hM1 l]
        cases hl1 : getLang L1 l with
        | none => rfl
        | some c1 => simp
      | some c2 =>
        rw [hM1D l]
        cases hl1 : getLang L1 l with
        | none => simp [getLangD, hl1]
        | some c1 => simp [getLangD, hl1]

/-- C4 witness: aggregating cached demo/app (JS 100) and freshly resolved
demo/lib (TS 30). -/
theorem c4_aggregate_additive_witness :
    aggregateLanguageCounts envW stW [] = (.ok [], stW, 0)
    ∧ ∃ M, aggregateLanguageCounts envW stW [repoW, repoBW]
          = (.ok M, stC4W, 0 + 1)
        ∧ ∀ l, getLang M l =
            match getLang [("JS", 100)] l, getLang [("TS", 30)] l with
            | none, none => none
            | o1, o2 => some (o1.getD 0 + o2.getD 0) :=
  c4_aggregate_additive envW stW stW stC4W repoW repoBW
    [("JS", 100)] [("TS", 30)] 0 1
    (by rfl) (by rfl) (by rfl) (by rfl) (by decide) (by decide)

/-- C5: a repository whose short name is blacklisted is skipped by
aggregation — aggregating a list containing it gives the same result,
state and call count as the list without it, so the repository causes no
resolver call and contributes nothing — yet the single-repository path
resolves exactly that repository when the name lookup finds it, ignoring
the repository-exclusion set. -/
theorem c5_exclusion_asymmetry (env : Env) (st : ServerState) (R : Repo)
    (l1 l2 : List Repo) (repos : List Repo) (u rn : String)
    (hbl : st.blacklist.repos.contains R.name = true)
    (hlist : env.listRepos u = .ok repos)
    (hfind : repos.find? (fun r => r.name == rn) = some R) :
    aggregateLanguageCounts env st (l1 ++ R :: l2)
      = aggregateLanguageCounts env st (l1 ++ l2)
    ∧ ∀ res st' k, fetchLanguageCountsForRepo env st R = (res, st', k) →
        countLinesOfCode env st u (some rn) = (res, st', 1, k) := by
  constructor
  · unfold aggregateLanguageCounts
    exact aggregateGo_skip env R l2 l1 st [] 0 hbl
  · intro res st' k hf
    unfold countLinesOfCode
    simp only [hlist, hfind, hf]

/-- C5 witness: demo/secret is skipped by aggregation but resolved (here:
attempted, surfacing the line-counter error) by the single-repository
path. -/
theorem c5_exclusion_asymmetry_witness :
    aggregateLanguageCounts envW stW ([repoW] ++ repoSecretW :: [])
      = aggregateLanguageCounts envW stW ([repoW] ++ [])
    ∧ countLinesOfCode envW stW "nik" (some "secret")
        = (.error "loc failed", stW, 1, 1) := by
  have h := c5_exclusion_asymmetry envW stW repoSecretW [repoW] []
    [repoW, repoSecretW] "nik" "secret" (by rfl) (by rfl) (by rfl)
  exact ⟨h.1, h.2 (.error "loc failed") stW 1 (by rfl)⟩

/-- C6: when the rate-limit check reports zero remaining budget, both
endpoints answer 429 with the rate-limit message, the state is unchanged,
and neither the repository listing nor the line counter is called. -/
theorem c6_rate_limit_guard (env : Env) (st : ServerState) (u rn : String)
    (h : env.rateLimit = .ok 0) :
    handleLanguagesUser env st u
      = (⟨429, .error "Rate limit exceeded. Try again later."⟩, st, 0, 0)
    ∧ handleLanguagesUserRepo env st u rn
      = (⟨429, .error "Rate limit exceeded. Try again later."⟩, st, 0, 0) := by
  constructor
  · unfold handleLanguagesUser
    simp [h]
  · unfold handleLanguagesUserRepo
    simp [h]

/-- C6 witness: both endpoints answer 429 under the exhausted budget. -/
theorem c6_rate_limit_guard_witness :
    handleLanguagesUser envZeroW stW "nik"
      = (⟨429, .error "Rate limit exceeded. Try again later."⟩, stW, 0, 0)
    ∧ handleLanguagesUserRepo envZeroW stW "nik" "app"
      = (⟨429, .error "Rate limit exceeded. Try again later."⟩, stW, 0, 0) :=
  c6_rate_limit_guard envZeroW stW "nik" "app" (by rfl)

/-- C9: with budget remaining and a successful listing containing no
repository of the requested short name, the single-repository endpoint
responds with the generic 500 status — not a distinct one — carrying the
Repository-not-found message in the error body, after one listing call
and no resolution. -/
theorem c9_not_found (env : Env) (st : ServerState) (u rn : String)
    (repos : List Repo) (remaining : Nat)
    (hrl : env.rateLimit = .ok remaining) (hnz : remaining ≠ 0)
    (hlist : env.listRepos u = .ok repos)
    (hfind : repos.find? (fun r => r.name == rn) = none) :
    handleLanguagesUserRepo env st u rn
      = (⟨500, .error ("Repository " ++ rn ++ " not found")⟩, st, 1, 0) := by
  unfold handleLanguagesUserRepo
  simp only [hrl]
  rw [if_neg (by simp [hnz])]
  unfold countLinesOfCode
  simp only [hlist, hfind]

/-- C9 witness: asking for the unknown repository ghost yields the 500
with the not-found message. -/
theorem c9_not_found_witness :
    handleLanguagesUserRepo envW stW "nik" "ghost"
      = (⟨500, .error ("Repository " ++ "ghost" ++ " not found")⟩, stW, 1, 0) :=
  c9_not_found envW stW "nik" "ghost" [repoW, repoSecretW] 5000
    (by rfl) (by decide) (by rfl) (by rfl)

/-- C3 counterexample: a present blacklist document parsing to an object
that is missing the paths and languages array fields is returned as-is —
not replaced by the empty defaults — with no error logged; and a document
parsing to a non-object value (the number 5) falls back to the defaults
while also logging no error.  Both contradict the claim that a malformed
document is logged and replaced by the empty defaults. -/
theorem c3_counterexample :
    loadDataFromFile (.content malformedBlacklistJson) blacklistDefaultJson
      = (malformedBlacklistJson, false, false)
    ∧ malformedBlacklistJson ≠ blacklistDefaultJson
    ∧ loadDataFromFile (.content (.num 5)) blacklistDefaultJson
      = (blacklistDefaultJson, false, false) := by
  refine ⟨rfl, ?_, rfl⟩
  intro h
  unfold malformedBlacklistJson blacklistDefaultJson at h
  simp at h

/-- C3 (amended): when the blacklist document is present but fails to
parse, loadDataFromFile logs an error and returns the empty defaults;
when it parses to a value that is not a truthy object-typed value (a
number, string, boolean or null), it returns the defaults without
logging; when it parses to any object or array — even one missing the
three array fields — that parsed value is returned as-is; in every case
a value is returned, so startup proceeds. -/
theorem c3_amended_load_behavior (j : Json) :
    loadDataFromFile .unparsable blacklistDefaultJson
      = (blacklistDefaultJson, true, false)
    ∧ ((jsTruthy j && jsTypeofObject j) = false →
        loadDataFromFile (.content j) blacklistDefaultJson
          = (blacklistDefaultJson, false, false))
    ∧ ((jsTruthy j && jsTypeofObject j) = true →
        loadDataFromFile (.content j) blacklistDefaultJson
          = (j, false, false)) := by
  refine ⟨rfl, ?_, ?_⟩
  · intro h
    simp [loadDataFromFile, h]
  · intro h
    simp [loadDataFromFile, h]

/-- C3 amended witness: the number 5 parses but is not object-typed, so
the defaults are returned without logging. -/
theorem c3_amended_load_behavior_witness :
    loadDataFromFile (.content (.num 5)) blacklistDefaultJson
      = (blacklistDefaultJson, false, false) :=
  (c3_amended_load_behavior (.num 5)).2.1 (by decide)

end GithubStats
